import Mathlib

/-!
Shallow embedding of `rename_images_to_timestamps.py`.

The script is a single sequential pipeline over a filesystem.  We model the
filesystem as an association list from path strings to file contents (one
entry per path in well-formed states), and the Python string operations used
by the script (`str.split`, `str.lower`, `os.path.dirname`, `os.path.join`,
`datetime.strptime`, `datetime.strftime`) as functions on `String` /
`List Char`.  Path separators are modelled as `'/'`.  Functions that can
raise a Python exception return an error-carrying result; loops that Python
runs unboundedly (`while True`) take a fuel parameter, with a dedicated
out-of-fuel outcome.
-/

namespace Renamer

/-- Table of the uppercase letters and their lowercase counterparts
(ASCII fragment, which is all that extensions and option letters use). -/
def lowerTable : List (Char × Char) :=
  [('A', 'a'), ('B', 'b'), ('C', 'c'), ('D', 'd'), ('E', 'e'), ('F', 'f'),
   ('G', 'g'), ('H', 'h'), ('I', 'i'), ('J', 'j'), ('K', 'k'), ('L', 'l'),
   ('M', 'm'), ('N', 'n'), ('O', 'o'), ('P', 'p'), ('Q', 'q'), ('R', 'r'),
   ('S', 's'), ('T', 't'), ('U', 'u'), ('V', 'v'), ('W', 'w'), ('X', 'x'),
   ('Y', 'y'), ('Z', 'z')]

/-- Model of Python `str.lower` on one character. -/
def pyLowerChar (c : Char) : Char :=
  match lowerTable.find? (fun p => p.1 == c) with
  | some p => p.2
  | none => c

/-- Model of Python `str.lower`. -/
def pyLower (s : String) : String := ⟨s.data.map pyLowerChar⟩

/-- Model of Python `str.upper` on one character (ASCII fragment),
via the reversed lowercase table. -/
def pyUpperChar (c : Char) : Char :=
  match lowerTable.find? (fun p => p.2 == c) with
  | some p => p.1
  | none => c

/-- Model of Python `str.upper`. -/
def pyUpper (s : String) : String := ⟨s.data.map pyUpperChar⟩

/-- The segment of `l` after its last `'.'` (all of `l` if it has no dot):
this is Python `s.split(".")[-1]` for the one-character separator `"."`. -/
def lastSegChars (l : List Char) : List Char :=
  (l.reverse.takeWhile (fun c => c != '.')).reverse

/-- Python `s.split(".")[-1]` on strings. -/
def lastSeg (s : String) : String := ⟨lastSegChars s.data⟩

/-- The segment of `l` strictly between its second-to-last and last `'.'`
(from the start of `l` if there is exactly one dot): this is Python
`s.split(".")[-2]`, `none` when the list would have fewer than two
elements (Python raises `IndexError`). -/
def secondLastSegChars (l : List Char) : Option (List Char) :=
  match l.reverse.dropWhile (fun c => c != '.') with
  | [] => none
  | _ :: rest => some ((rest.takeWhile (fun c => c != '.')).reverse)

/-- Python `s.split(".")[-2]` on strings (`none` models `IndexError`). -/
def secondLastSeg (s : String) : Option String :=
  (secondLastSegChars s.data).map (fun l => (⟨l⟩ : String))

/-- Model of `posixpath.dirname`: everything before the last `'/'`, with trailing
slashes stripped unless the prefix consists only of slashes. -/
def dirnameChars (l : List Char) : List Char :=
  let head := (l.reverse.dropWhile (fun c => c != '/')).reverse
  if head.all (fun c => c == '/') then head
  else (head.reverse.dropWhile (fun c => c == '/')).reverse

/-- Model of `os.path.dirname` (POSIX flavour; separators are `'/'`). -/
def os_dirname (s : String) : String := ⟨dirnameChars s.data⟩

/-- Model of `os.path.join root f` (POSIX flavour). -/
def pyJoin (root f : String) : String :=
  if f.data.head? = some '/' then f
  else if root = "" then f
  else if root.data.getLast? = some '/' then root ++ f
  else root ++ "/" ++ f

/-- Model of Python `s.split("+", 1)[0]` used by `cut_out_time_zone`:
the prefix of `s` before the first `'+'` (all of `s` if there is none). -/
def cut_out_time_zone (s : String) : String :=
  ⟨s.data.takeWhile (fun c => c != '+')⟩

/-! ### Decimal formatting (`strftime`) -/

/-- The decimal digit character for `n` (for `n ≤ 9`). -/
def digitChar (n : Nat) : Char :=
  if n = 0 then '0' else if n = 1 then '1' else if n = 2 then '2'
  else if n = 3 then '3' else if n = 4 then '4' else if n = 5 then '5'
  else if n = 6 then '6' else if n = 7 then '7' else if n = 8 then '8'
  else '9'

/-- Fuelled decimal printer (standard base-10 digits of `n`). -/
def natToDecAux : Nat → Nat → List Char
  | 0, _ => []
  | fuel + 1, n =>
    if n < 10 then [digitChar n]
    else natToDecAux fuel (n / 10) ++ [digitChar (n % 10)]

/-- The decimal digits of `n` (model of Python `str(n)` for `Nat`). -/
def natToDec (n : Nat) : List Char := natToDecAux (n + 1) n

/-- Zero-padded decimal of width `w`, as produced by `strftime` field
specifiers such as `%m`, `%d`, `%H` (and `%Y` for four-digit years). -/
def padDec (w n : Nat) : List Char :=
  List.replicate (w - (natToDec n).length) '0' ++ natToDec n

/-! ### Timestamps and `datetime.strptime` -/

/-- A parsed calendar timestamp (`datetime.datetime` restricted to the
fields the script uses). -/
structure DateTime where
  year : Nat
  month : Nat
  day : Nat
  hour : Nat
  minute : Nat
  second : Nat
deriving DecidableEq, Repr

/-- Gregorian month length, as validated by the `datetime` constructor. -/
def daysInMonth (y m : Nat) : Nat :=
  if m = 2 then
    if y % 4 = 0 && (y % 100 != 0 || y % 400 = 0) then 29 else 28
  else if m = 4 || m = 6 || m = 9 || m = 11 then 30
  else 31

/-- Read exactly `k` decimal digits from the front of `l`. -/
def readFixedDigits : Nat → List Char → Option (Nat × List Char)
  | 0, l => some (0, l)
  | _ + 1, [] => none
  | k + 1, c :: rest =>
    if c.isDigit then
      (readFixedDigits k rest).map (fun p =>
        ((c.toNat - 48) * 10 ^ k + p.1, p.2))
    else none

/-- Read one or two decimal digits from the front of `l` (two when the
second character is also a digit), as the `strptime` patterns for
month/day/hour/minute/second do on digit-separator input. -/
def readOneTwoDigits : List Char → Option (Nat × List Char)
  | [] => none
  | c :: rest =>
    if c.isDigit then
      match rest with
      | c2 :: rest2 =>
        if c2.isDigit then some ((c.toNat - 48) * 10 + (c2.toNat - 48), rest2)
        else some (c.toNat - 48, rest)
      | [] => some (c.toNat - 48, [])
    else none

/-- Expect the literal character `c` at the front of `l`. -/
def expectChar (c : Char) : List Char → Option (List Char)
  | [] => none
  | x :: rest => if x = c then some rest else none

/-- Model of `datetime.strptime(s, "%Y:%m:%d %H:%M:%S")`, hence of the
script's `get_datetime`: `%Y` is exactly four digits, the other fields one
or two; the whole string must be consumed; field values are validated as
the `datetime` constructor does (year ≥ 1, month 1–12, day 1–month length,
hour ≤ 23, minute ≤ 59, second ≤ 59).  `none` models the `ValueError`
that `get_datetime` lets propagate. -/
def get_datetime (s : String) : Option DateTime := do
  let (y, r) ← readFixedDigits 4 s.data
  let r ← expectChar ':' r
  let (mo, r) ← readOneTwoDigits r
  let r ← expectChar ':' r
  let (d, r) ← readOneTwoDigits r
  let r ← expectChar ' ' r
  let (h, r) ← readOneTwoDigits r
  let r ← expectChar ':' r
  let (mi, r) ← readOneTwoDigits r
  let r ← expectChar ':' r
  let (sec, r) ← readOneTwoDigits r
  match r with
  | [] =>
    if 1 ≤ y && 1 ≤ mo && mo ≤ 12 && 1 ≤ d && d ≤ daysInMonth y mo
        && h ≤ 23 && mi ≤ 59 && sec ≤ 59 then
      some ⟨y, mo, d, h, mi, sec⟩
    else none
  | _ => none

/-- Embedding of `get_filename_from_datetime`: `dt.strftime("%Y%m%d_%H%M%S")`. -/
def get_filename_from_datetime (dt : DateTime) : String :=
  ⟨padDec 4 dt.year ++ padDec 2 dt.month ++ padDec 2 dt.day ++ '_' ::
    (padDec 2 dt.hour ++ padDec 2 dt.minute ++ padDec 2 dt.second)⟩

/-- Embedding of `get_new_filename`: `os.path.dirname(src) + "/" +
get_filename_from_datetime(dt) + "." + src.split(".")[-1].lower()`
(the record's `SourceFile` field is passed as `src`). -/
def get_new_filename (src : String) (dt : DateTime) : String :=
  os_dirname src ++ "/" ++ get_filename_from_datetime dt ++ "." ++
    pyLower (lastSeg src)

/-! ### Filesystem model -/

/-- A filesystem state: an association list from path to byte content
(modelled as a string).  Well-formed states have one entry per path. -/
abbrev FS := List (String × String)

/-- The contents stored in the filesystem (one per file). -/
def contentsOf (fs : FS) : List String := fs.map Prod.snd

/-- The paths present in the filesystem. -/
def keysOf (fs : FS) : List String := fs.map Prod.fst

/-- Model of `os.path.exists`. -/
def pathExists (fs : FS) (p : String) : Bool :=
  (fs.find? (fun e => e.1 == p)).isSome

/-- Reading a file's bytes (`open(p, "rb").read()`); `none` when the path
does not exist (Python raises `FileNotFoundError`). -/
def readFile (fs : FS) (p : String) : Option String :=
  (fs.find? (fun e => e.1 == p)).map Prod.snd

/-- Embedding of `files_are_identical`: opens both files and compares their bytes;
`Except.error` models the `FileNotFoundError` raised by `open` when either
path is missing. -/
def files_are_identical (fs : FS) (p1 p2 : String) : Except Unit Bool :=
  match readFile fs p1, readFile fs p2 with
  | some c1, some c2 => Except.ok (c1 == c2)
  | _, _ => Except.error ()

/-- Model of `os.remove p`. -/
def removeFile (fs : FS) (p : String) : FS :=
  fs.filter (fun e => e.1 != p)

/-- Model of `os.rename old new` (called by the script only after checking
that `new` does not exist and `old` does). -/
def renameFile (fs : FS) (old new : String) : FS :=
  match readFile fs old with
  | some c => (new, c) :: removeFile fs old
  | none => fs

/-- Outcome of running a piece of the script on a filesystem state:
normal completion, a propagating Python exception, or fuel exhaustion of
a `while True` loop (each carrying the state reached). -/
inductive RenRes where
  | ok (fs : FS)
  | err (fs : FS)
  | fuelOut (fs : FS)
deriving DecidableEq, Repr

/-- The filesystem state carried by an outcome. -/
def RenRes.fs : RenRes → FS
  | .ok fs => fs
  | .err fs => fs
  | .fuelOut fs => fs

/-! ### The collision loop `change_filename_until_success` -/

/-- One suffixing step of the loop body (executed when `i != 1`):
`"." + new.split(".")[-2] + " (" + str(i) + ")." + new.split(".")[-1]`.
`none` models the `IndexError` when `new` contains no dot. -/
def nextCandidate (new : String) (i : Nat) : Option String :=
  match secondLastSeg new with
  | some mid => some ("." ++ mid ++ " (" ++ (⟨natToDec i⟩ : String) ++ ")." ++ lastSeg new)
  | none => none

/-- The `while True:` loop of `change_filename_until_success`, with the
loop counter `i` and the current value of the (reassigned) variable
`new_filename` as arguments.  Mirrors the source line by line: the suffix
transformation runs at the top of every iteration with `i != 1`; when the
candidate exists and is identical to `old`, `old` is removed and the loop
continues (there is no `break` in that branch); when the candidate is free,
`old` is renamed onto it if `old` still exists, and the loop breaks. -/
def cfusLoop (old : String) : Nat → FS → String → Nat → RenRes
  | 0, fs, _, _ => .fuelOut fs
  | fuel + 1, fs, new, i =>
    match (if i == 1 then some new else nextCandidate new i) with
    | none => .err fs
    | some cand =>
      if pathExists fs cand then
        match files_are_identical fs old cand with
        | .error _ => .err fs
        | .ok true => cfusLoop old fuel (removeFile fs old) cand i
        | .ok false => cfusLoop old fuel fs cand (i + 1)
      else
        if pathExists fs old then .ok (renameFile fs old cand)
        else .ok fs

/-- Embedding of `change_filename_until_success old new`: runs the collision loop with
`i = 1`. -/
def change_filename_until_success (fuel : Nat) (fs : FS) (old new : String) : RenRes :=
  cfusLoop old fuel fs new 1

/-- Embedding of `rename_file_if_necessary`: a no-op when the names are equal, else the
collision loop. -/
def rename_file_if_necessary (fuel : Nat) (fs : FS) (old new : String) : RenRes :=
  if old == new then .ok fs
  else change_filename_until_success fuel fs old new

/-! ### File enumeration and metadata classification -/

/-- The allow-list of extensions (`multimediaFormats`). -/
def multimediaFormats : List String := ["png", "jpg", "jpeg", "m4v", "mov", "mp4"]

/-- The filter applied to each file name inside `list_files`:
`file.split(".")[-1].lower() in multimediaFormats`. -/
def includeFile (file : String) : Bool :=
  multimediaFormats.contains (pyLower (lastSeg file))

/-- Embedding of `list_files`, with the result of `os.walk` supplied as a list of
`(root, files-in-root)` pairs (the unused `dirs` component is omitted):
for each root in order, each file passing the extension filter is appended
as `os.path.join(root, file)`. -/
def list_files (walk : List (String × List String)) : List String :=
  (walk.map (fun rf => (rf.2.filter includeFile).map (pyJoin rf.1))).flatten

/-- A metadata record: a mapping from tag name to string value, as
returned by the extraction collaborator for one file. -/
abbrev Record := List (String × String)

/-- The classification test of `find_files_with_datetimeoriginal_metadata`:
`"EXIF:DateTimeOriginal" in data and data["EXIF:DateTimeOriginal"] !=
"0000:00:00 00:00:00"`. -/
def hasValidDTO (data : Record) : Bool :=
  match data.find? (fun e => e.1 == "EXIF:DateTimeOriginal") with
  | some e => e.2 != "0000:00:00 00:00:00"
  | none => false

/-- Embedding of `find_files_with_datetimeoriginal_metadata`: partitions the records in
input order, appending each record to the valid or the invalid list. -/
def find_files_with_datetimeoriginal_metadata : List Record → List Record × List Record
  | [] => ([], [])
  | data :: rest =>
    let p := find_files_with_datetimeoriginal_metadata rest
    if hasValidDTO data then (data :: p.1, p.2) else (p.1, data :: p.2)

/-! ### Fallback-date handling -/

/-- The `while True:` prompt loop inside the both-dates branch of
`rename_file_if_any_date_metadata_exists`; `stdin` supplies the operator's
responses (`input()` with no line left raises, modelled by `.err`). -/
def promptLoop (srcFile : String) (mdt cdt : DateTime) :
    Nat → FS → List String → RenRes
  | 0, fs, _ => .fuelOut fs
  | fuel + 1, fs, stdin =>
    match stdin with
    | [] => .err fs
    | option :: rest =>
      if pyUpper option == "M" then
        rename_file_if_necessary fuel fs srcFile (get_new_filename srcFile mdt)
      else if pyUpper option == "C" then
        rename_file_if_necessary fuel fs srcFile (get_new_filename srcFile cdt)
      else if pyUpper option == "O" then .ok fs
      else promptLoop srcFile mdt cdt fuel fs rest

/-- Embedding of `rename_file_if_any_date_metadata_exists file file_modify_date
file_create_date`, with `srcFile` standing for `file["SourceFile"]`.

In the source, `modify_datetime` and `create_datetime` are assigned only
inside the branch where both dates are present; the `elif` branches for a
single present date read those unassigned variables, so they raise
`UnboundLocalError` (modelled by `.err`). -/
def rename_file_if_any_date_metadata_exists (fuel : Nat) (fs : FS)
    (stdin : List String) (srcFile : String)
    (file_modify_date file_create_date : Option String) : RenRes :=
  match file_modify_date, file_create_date with
  | some m, some c =>
    match get_datetime m with
    | none => .err fs
    | some mdt =>
      match get_datetime c with
      | none => .err fs
      | some cdt => promptLoop srcFile mdt cdt fuel fs stdin
  | some _, none => .err fs
  | none, some _ => .err fs
  | none, none => .ok fs

/-! ### The valid-files loop of `main` -/

/-- The `for file in valid_files:` loop of `main`.  Each element of
`files` is `(SourceFile, EXIF:DateTimeOriginal)`.  `newVar` is the current
binding of the loop-carried local variable `new_filename`: when
`get_datetime` raises `ValueError`, the `except` clause only prints, the
loop body falls through, and `rename_file_if_necessary` is called with the
previous binding — or raises `NameError` (modelled by `.err`) when the
variable has never been assigned. -/
def processValidFiles (fuel : Nat) :
    FS → List (String × String) → Option String → RenRes
  | fs, [], _ => .ok fs
  | fs, (src, dto) :: rest, newVar =>
    let newVar2 := match get_datetime dto with
                   | some dt => some (get_new_filename src dt)
                   | none => newVar
    match newVar2 with
    | none => .err fs
    | some nf =>
      match rename_file_if_necessary fuel fs src nf with
      | .ok fs2 => processValidFiles fuel fs2 rest (some nf)
      | r => r

/-! ### Instrumentation of the collision loop

Two boolean mirrors of `cfusLoop`, used as hypotheses: they replay exactly
the same control flow and record a property of the trace. -/

/-- Holds (as `true`) iff at no iteration the examined candidate both exists, compares
byte-identical to `old`, and *is* `old` itself (the one situation in which
the loop's `os.remove(old)` destroys the only copy of the content). -/
def cfusSafe (old : String) : Nat → FS → String → Nat → Bool
  | 0, _, _, _ => true
  | fuel + 1, fs, new, i =>
    match (if i == 1 then some new else nextCandidate new i) with
    | none => true
    | some cand =>
      if pathExists fs cand then
        match files_are_identical fs old cand with
        | .error _ => true
        | .ok true => cand != old && cfusSafe old fuel (removeFile fs old) cand i
        | .ok false => cfusSafe old fuel fs cand (i + 1)
      else true

/-- Holds (as `true`) iff no examined candidate exists with byte content identical to
`old` (and every comparison performed succeeds), i.e. the loop never takes
its `os.remove` branch and never raises inside `files_are_identical`. -/
def noIdenticalRun (old : String) : Nat → FS → String → Nat → Bool
  | 0, _, _, _ => true
  | fuel + 1, fs, new, i =>
    match (if i == 1 then some new else nextCandidate new i) with
    | none => true
    | some cand =>
      if pathExists fs cand then
        match files_are_identical fs old cand with
        | .error _ => false
        | .ok true => false
        | .ok false => noIdenticalRun old fuel fs cand (i + 1)
      else true

/-- Candidate-scanning specification of the collision loop over a *frozen*
filesystem: starting from the current `new_filename`, repeatedly apply the
suffixing step (so suffixes accumulate on the previous candidate) until a
candidate is free, then perform the single rename of `old` onto it. -/
def cfusSpec (fs : FS) (old : String) : Nat → String → Nat → RenRes
  | 0, _, _ => .fuelOut fs
  | fuel + 1, new, i =>
    match (if i == 1 then some new else nextCandidate new i) with
    | none => .err fs
    | some cand =>
      if pathExists fs cand then cfusSpec fs old fuel cand (i + 1)
      else
        if pathExists fs old then .ok (renameFile fs old cand)
        else .ok fs

/-! ## Concrete evaluations settling the claims that fail on the code -/

/-- C1 (counterexample).  The routine can destroy a file's byte content:
with `old = "./a (2).b"` (content `"X"`) and target `"./a.b"` (existing,
content `"Y"`), the `i = 2` candidate reconstructed by the suffixing step
is `"./a (2).b"` — `old` itself — which exists and is byte-identical to
`old`, so the loop removes `old`, destroying the only copy of `"X"`. -/
theorem C1_cex :
    rename_file_if_necessary 9 [("./a (2).b", "X"), ("./a.b", "Y")] "./a (2).b" "./a.b"
        = RenRes.ok [("./a.b", "Y")]
      ∧ "X" ∈ contentsOf [("./a (2).b", "X"), ("./a.b", "Y")]
      ∧ "X" ∉ contentsOf [("./a.b", "Y")] := by decide

/-- C2.  When the first candidate exists and is byte-identical to `old`,
the loop removes `old` but does not break: the next iteration re-checks
existence of the unchanged candidate and calls `files_are_identical`
again, which opens the just-deleted `old` and raises `FileNotFoundError`
(the `.err` outcome), instead of stopping after the deletion. -/
theorem C2_missing_break :
    change_filename_until_success 5 [("a.txt", "X"), ("b.txt", "X")] "a.txt" "b.txt"
      = RenRes.err [("b.txt", "X")] := by decide

/-- C3 (counterexample).  With `"./n.j"` and `"./n (2).j"` both occupied
by content different from `old`, the chosen final name is
`"./n (2) (3).j"` — the suffix is inserted into the *previous candidate*,
so suffixes accumulate — and not `"./n (3).j"`, the smallest-`N` name the
claim predicts, which remains unoccupied afterwards. -/
theorem C3_cex :
    change_filename_until_success 9
        [("./o.j", "A"), ("./n.j", "B"), ("./n (2).j", "C")] "./o.j" "./n.j"
        = RenRes.ok [("./n (2) (3).j", "A"), ("./n.j", "B"), ("./n (2).j", "C")]
      ∧ pathExists [("./n (2) (3).j", "A"), ("./n.j", "B"), ("./n (2).j", "C")]
          "./n (3).j" = false := by decide

/-- C4.  In the source, `modify_datetime` and `create_datetime` are
assigned only in the branch where both fallback dates are present, so the
`elif` branch for a single present date reads an unassigned local and
raises `UnboundLocalError` (the `.err` outcome) instead of renaming. -/
theorem C4_unbound_local :
    rename_file_if_any_date_metadata_exists 9 [("./images/a.jpg", "A")] []
        "./images/a.jpg" (some "2021:05:11 12:34:56") none
        = RenRes.err [("./images/a.jpg", "A")]
      ∧ rename_file_if_any_date_metadata_exists 9 [("./images/a.jpg", "A")] []
        "./images/a.jpg" none (some "2021:05:11 12:34:56")
        = RenRes.err [("./images/a.jpg", "A")] := by decide

/-- C5.  A malformed `EXIF:DateTimeOriginal` is not skipped: the `except
ValueError` clause only prints and the body falls through to
`rename_file_if_necessary` with the loop-carried `new_filename`.  For the
first file of the batch the variable is unbound, so the loop raises
`NameError` and the batch halts (first conjunct); for a later file the
stale binding renames the malformed-date file onto the *previous* file's
target, here acquiring the collision suffix ` (2)` (second conjunct). -/
theorem C5_no_skip :
    processValidFiles 9 [("./images/a.jpg", "A")] [("./images/a.jpg", "garbage")] none
        = RenRes.err [("./images/a.jpg", "A")]
      ∧ processValidFiles 9 [("./images/a.jpg", "A"), ("./images/b.jpg", "B")]
          [("./images/a.jpg", "2021:05:11 12:34:56"), ("./images/b.jpg", "garbage")] none
        = RenRes.ok [("./images/20210511_123456 (2).jpg", "B"),
            ("./images/20210511_123456.jpg", "A")] := by decide

/-- C6 (counterexample).  A second run is not a no-op: a file that
received the collision suffix ` (2)` in the first run derives its
unsuffixed name again, the `i = 2` retry candidate is its own current
name, the self-comparison is byte-identical, and the file is deleted. -/
theorem C6_cex :
    get_datetime "2021:05:11 12:34:56" = some ⟨2021, 5, 11, 12, 34, 56⟩
      ∧ get_new_filename "./20210511_123456 (2).jpg" ⟨2021, 5, 11, 12, 34, 56⟩
          = "./20210511_123456.jpg"
      ∧ rename_file_if_necessary 9
          [("./20210511_123456.jpg", "B"), ("./20210511_123456 (2).jpg", "A")]
          "./20210511_123456 (2).jpg" "./20210511_123456.jpg"
        = RenRes.ok [("./20210511_123456.jpg", "B")] := by decide

/-- C7 (counterexample).  A record whose `EXIF:DateTimeOriginal` value is
the empty string is placed in the *valid* list: the code only tests
presence and inequality with the sentinel, not non-emptiness as the claim
states. -/
theorem C7_cex :
    find_files_with_datetimeoriginal_metadata [[("EXIF:DateTimeOriginal", "")]]
      = ([[("EXIF:DateTimeOriginal", "")]], ([] : List Record)) := by decide

/-- C9 (counterexample).  Only a `'+'` starts a removed suffix: a
negative-offset timezone suffix `-05:00` is left in place by
`cut_out_time_zone`, and the resulting string fails to parse, while the
same timestamp without the suffix parses fine. -/
theorem C9_cex :
    cut_out_time_zone "2021:05:11 12:34:56-05:00" = "2021:05:11 12:34:56-05:00"
      ∧ get_datetime "2021:05:11 12:34:56-05:00" = none
      ∧ get_datetime "2021:05:11 12:34:56" = some ⟨2021, 5, 11, 12, 34, 56⟩ := by decide

/-! ## Amended and confirmed properties -/

/-- C6 (amended).  The second pass over a file is a no-op exactly through
the guard of `rename_file_if_necessary`: when the derived filename equals
the current one, the filesystem is returned unchanged and no rename,
deletion or collision handling happens. -/
theorem C6_noop_when_name_unchanged (fuel : Nat) (fs : FS) (name : String) :
    rename_file_if_necessary fuel fs name name = RenRes.ok fs := by
  simp [rename_file_if_necessary]

/-- C7 (amended).  The classifier is an order-preserving partition:
a record goes to the valid list iff it contains an `EXIF:DateTimeOriginal`
tag whose value differs from the sentinel `"0000:00:00 00:00:00"`
(emptiness is not tested), and to the invalid list otherwise. -/
theorem C7_partition (ms : List Record) :
    find_files_with_datetimeoriginal_metadata ms
      = (ms.filter hasValidDTO, ms.filter (fun d => ! hasValidDTO d)) := by
  induction ms with
  | nil => rfl
  | cons d rest ih =>
    by_cases h : hasValidDTO d <;>
      simp [find_files_with_datetimeoriginal_metadata, ih, List.filter_cons, h]

/-- Helper: under a run in which no examined candidate compares
byte-identical to `old`, the collision loop never modifies the filesystem
before its final step, and agrees with the frozen-filesystem candidate
scan `cfusSpec`. -/
theorem cfusLoop_eq_spec_of_noIdentical (old : String) :
    ∀ fuel fs new i, noIdenticalRun old fuel fs new i = true →
      cfusLoop old fuel fs new i = cfusSpec fs old fuel new i := by
  intro fuel
  induction fuel with
  | zero => intro fs new i _; rfl
  | succ fuel ih =>
    intro fs new i h
    simp only [cfusLoop, cfusSpec]
    simp only [noIdenticalRun] at h
    cases hcand : (if i == 1 then some new else nextCandidate new i) with
    | none => rfl
    | some cand =>
      rw [hcand] at h
      by_cases hex : pathExists fs cand
      · simp only [hex, if_true] at h ⊢
        cases hid : files_are_identical fs old cand with
        | error e => rw [hid] at h; simp at h
        | ok b =>
          cases b with
          | true => rw [hid] at h; simp at h
          | false =>
            rw [hid] at h
            exact ih fs cand (i + 1) h
      · simp only [hex] at h ⊢
        simp

/-- C3 (amended).  When `new` collides and no candidate ever compares
byte-identical to `old`, the loop leaves the filesystem untouched until a
single final rename, and the name chosen is the one computed by scanning
the accumulated-suffix candidate sequence over the unchanged filesystem:
each retry candidate is obtained from the *previous* candidate by
prepending `"."` and inserting `" (i)"` (counter starting at 2) before its
extension — so suffixes accumulate, e.g. `name (2) (3).ext` — and the
first candidate not occupied on disk is taken (old renamed onto it if it
still exists). -/
theorem C3_accumulated_suffix_refinement (fuel : Nat) (fs : FS) (old new : String)
    (h : noIdenticalRun old fuel fs new 1 = true) :
    change_filename_until_success fuel fs old new = cfusSpec fs old fuel new 1 :=
  cfusLoop_eq_spec_of_noIdentical old fuel fs new 1 h

/-- Witness for C3 (amended) at a concrete collision. -/
theorem C3_accumulated_suffix_refinement_witness :
    noIdenticalRun "./o.j" 4 [("./o.j", "A"), ("./n.j", "B")] "./n.j" 1 = true
      ∧ change_filename_until_success 4 [("./o.j", "A"), ("./n.j", "B")] "./o.j" "./n.j"
          = cfusSpec [("./o.j", "A"), ("./n.j", "B")] "./o.j" 4 "./n.j" 1 :=
  ⟨by decide, C3_accumulated_suffix_refinement 4 _ _ _ (by decide)⟩

/-- Helper: in a filesystem with no duplicate paths, `find?` on an
entry's own path returns that entry. -/
theorem find?_eq_of_mem_nodup :
    ∀ (fs : FS), (keysOf fs).Nodup →
      ∀ e ∈ fs, fs.find? (fun x => x.1 == e.1) = some e := by
  intro fs
  induction fs with
  | nil => intro _ e he; cases he
  | cons a t ih =>
    intro hn e he
    simp only [keysOf, List.map_cons, List.nodup_cons] at hn
    rcases List.mem_cons.mp he with rfl | het
    · rw [List.find?_cons_of_pos _ (by simp)]
    · by_cases hae : a.1 = e.1
      · refine absurd ?_ hn.1
        rw [hae]
        exact List.mem_map_of_mem Prod.fst het
      · rw [List.find?_cons_of_neg _ (by simpa using hae)]
        exact ih hn.2 e het

/-- Helper: removing a path keeps the path list duplicate-free. -/
theorem keysOf_removeFile_nodup (fs : FS) (p : String)
    (hn : (keysOf fs).Nodup) : (keysOf (removeFile fs p)).Nodup :=
  List.Nodup.sublist (List.Sublist.map Prod.fst (List.filter_sublist fs)) hn

/-- Helper: an entry whose path differs from the removed one keeps its
content present after `removeFile`. -/
theorem mem_contentsOf_removeFile (fs : FS) (p : String) (e : String × String)
    (he : e ∈ fs) (hne : e.1 ≠ p) : e.2 ∈ contentsOf (removeFile fs p) := by
  refine List.mem_map.mpr ⟨e, ?_, rfl⟩
  refine List.mem_filter.mpr ⟨he, ?_⟩
  simpa using hne

/-- Helper: content preservation for the collision loop.  Provided the
filesystem has one entry per path and the run never deletes `old` against
a byte-identical candidate that is `old` itself, every byte content
present before is present at some path in the outcome's filesystem —
whether the loop ends normally, raises, or runs out of fuel. -/
theorem cfusLoop_preserves_contents (old : String) :
    ∀ fuel fs new i, (keysOf fs).Nodup → cfusSafe old fuel fs new i = true →
      ∀ c, c ∈ contentsOf fs → c ∈ contentsOf (cfusLoop old fuel fs new i).fs := by
  intro fuel
  induction fuel with
  | zero => intro fs new i _ _ c hc; exact hc
  | succ fuel ih =>
    intro fs new i hn hs c hc
    simp only [cfusLoop]
    simp only [cfusSafe] at hs
    cases hcand : (if i == 1 then some new else nextCandidate new i) with
    | none => exact hc
    | some cand =>
      rw [hcand] at hs
      obtain ⟨e, he, rfl⟩ := List.mem_map.mp hc
      by_cases hex : pathExists fs cand
      · simp only [hex, if_true] at hs ⊢
        cases hid : files_are_identical fs old cand with
        | error u => exact hc
        | ok b =>
          cases b with
          | false =>
            rw [hid] at hs
            exact ih fs cand (i + 1) hn hs e.2 hc
          | true =>
            rw [hid] at hs
            simp only [Bool.and_eq_true] at hs
            obtain ⟨hco, hs⟩ := hs
            have hcandold : cand ≠ old := by simpa using hco
            refine ih (removeFile fs old) cand i
              (keysOf_removeFile_nodup fs old hn) hs e.2 ?_
            by_cases heo : e.1 = old
            · -- the entry removed is `old`; its content also sits at `cand`
              have hro : readFile fs old = some e.2 := by
                have := find?_eq_of_mem_nodup fs hn e he
                rw [heo] at this
                simp [readFile, this]
              cases hfc : fs.find? (fun x => x.1 == cand) with
              | none =>
                exfalso
                simp [pathExists, hfc] at hex
              | some ec =>
                have hec1 : ec.1 = cand := by
                  have := List.find?_some hfc
                  simpa using this
                have hrc : readFile fs cand = some ec.2 := by
                  simp [readFile, hfc]
                have hsame : e.2 = ec.2 := by
                  rw [files_are_identical, hro, hrc] at hid
                  have : (e.2 == ec.2) = true := by
                    injection hid with h2
                  simpa using this
                rw [hsame]
                exact mem_contentsOf_removeFile fs old ec
                  (List.mem_of_find?_eq_some hfc) (hec1 ▸ hcandold)
            · exact mem_contentsOf_removeFile fs old e he heo
      · simp only [hex] at hs ⊢
        by_cases hold : pathExists fs old
        · simp only [hold, if_true]
          cases hfo : fs.find? (fun x => x.1 == old) with
          | none => simp [pathExists, hfo] at hold
          | some eo =>
            have hro : readFile fs old = some eo.2 := by simp [readFile, hfo]
            simp only [RenRes.fs, renameFile, hro, Bool.false_eq_true, if_false]
            by_cases heo : e.1 = old
            · have heeo : e = eo := by
                have h1 := find?_eq_of_mem_nodup fs hn e he
                rw [heo] at h1
                rw [h1] at hfo
                exact Option.some_inj.mp hfo
              simp [contentsOf, heeo]
            · simp only [contentsOf, List.map_cons]
              exact List.mem_cons_of_mem _
                (mem_contentsOf_removeFile fs old e he heo)
        · simp only [hold, Bool.false_eq_true, if_false]
          exact hc

/-- C1 (amended).  No rename ever targets an existing path, and provided
no retry candidate coincides with `old` itself at a byte-identical
comparison (the `cfusSafe` hypothesis; the counterexample shows the claim
fails without it), the routine destroys no byte content: every content
present in the filesystem before `rename_file_if_necessary` is present at
some path afterwards, in every outcome (normal, exception, or fuel cut). -/
theorem C1_no_content_destroyed (fuel : Nat) (fs : FS) (old new : String)
    (hn : (keysOf fs).Nodup) (hs : cfusSafe old fuel fs new 1 = true)
    (c : String) (hc : c ∈ contentsOf fs) :
    c ∈ contentsOf (rename_file_if_necessary fuel fs old new).fs := by
  unfold rename_file_if_necessary
  by_cases h : old == new
  · simp only [h, if_true]
    exact hc
  · simp only [h, Bool.false_eq_true, if_false]
    exact cfusLoop_preserves_contents old fuel fs new 1 hn hs c hc

/-- Witness for C1 (amended) at a concrete rename without collision. -/
theorem C1_no_content_destroyed_witness :
    ((keysOf [("a.txt", "X")]).Nodup
        ∧ cfusSafe "a.txt" 3 [("a.txt", "X")] "b.txt" 1 = true)
      ∧ "X" ∈ contentsOf
          (rename_file_if_necessary 3 [("a.txt", "X")] "a.txt" "b.txt").fs :=
  ⟨⟨by decide, by decide⟩,
    C1_no_content_destroyed 3 [("a.txt", "X")] "a.txt" "b.txt"
      (by decide) (by decide) "X" (by decide)⟩

/-- Helper: `takeWhile` over a list whose prefix has no `'+'` followed by
a literal `'+'` returns exactly that prefix. -/
theorem takeWhile_ne_plus_append (l1 l2 : List Char)
    (h : ∀ c ∈ l1, c ≠ '+') :
    (l1 ++ '+' :: l2).takeWhile (fun c => c != '+') = l1 := by
  induction l1 with
  | nil => simp
  | cons a t ih =>
    have ha : (a != '+') = true := by
      simpa using h a (List.mem_cons_self a t)
    simp [List.takeWhile_cons, ha,
      ih (fun c hc => h c (List.mem_cons_of_mem a hc))]

/-- C9 (amended).  For every fallback date string consisting of a
parseable `YYYY:MM:DD HH:MM:SS` part followed by a timezone suffix that
begins with `'+'`, `cut_out_time_zone` removes exactly the suffix and the
result parses; suffixes not introduced by `'+'` (e.g. negative offsets)
are not removed, per the counterexample. -/
theorem C9_plus_suffix_removed (base tz : String) (dt : DateTime)
    (hplus : ∀ c ∈ base.data, c ≠ '+') (hparse : get_datetime base = some dt) :
    cut_out_time_zone (base ++ "+" ++ tz) = base
      ∧ get_datetime (cut_out_time_zone (base ++ "+" ++ tz)) = some dt := by
  have hdata : (base ++ "+" ++ tz).data = base.data ++ '+' :: tz.data := by
    simp [String.data_append]
  have hcut : cut_out_time_zone (base ++ "+" ++ tz) = base := by
    rw [cut_out_time_zone, hdata, takeWhile_ne_plus_append base.data tz.data hplus]
  exact ⟨hcut, by rw [hcut]; exact hparse⟩

/-- Witness for C9 (amended) at a concrete positive-offset timestamp. -/
theorem C9_plus_suffix_removed_witness :
    (∀ c ∈ ("2021:05:11 12:34:56" : String).data, c ≠ '+')
      ∧ cut_out_time_zone ("2021:05:11 12:34:56" ++ "+" ++ "02:00")
          = "2021:05:11 12:34:56"
      ∧ get_datetime (cut_out_time_zone ("2021:05:11 12:34:56" ++ "+" ++ "02:00"))
          = some ⟨2021, 5, 11, 12, 34, 56⟩ :=
  ⟨by decide,
    (C9_plus_suffix_removed "2021:05:11 12:34:56" "02:00" ⟨2021, 5, 11, 12, 34, 56⟩
      (by decide) (by decide)).1,
    (C9_plus_suffix_removed "2021:05:11 12:34:56" "02:00" ⟨2021, 5, 11, 12, 34, 56⟩
      (by decide) (by decide)).2⟩

/-- Helper: a dot-free string is its own last dot-segment. -/
theorem lastSeg_of_no_dot (f : String) (h : ∀ c ∈ f.data, c ≠ '.') :
    lastSeg f = f := by
  have ht : f.data.reverse.takeWhile (fun c => c != '.') = f.data.reverse := by
    rw [List.takeWhile_eq_self_iff]
    intro c hc
    simpa using h c (List.mem_reverse.mp hc)
  rw [lastSeg, lastSegChars, ht, List.reverse_reverse]

/-- C10.  The extension filter of `list_files` tests the last
dot-segment of the name, which for a dotless name is the whole name: such
a file is enumerated iff its entire lowercased name is in the allow-list;
in particular a file literally named `"PNG"` is enumerated. -/
theorem C10_dotless_name_filter :
    (∀ f : String, (∀ c ∈ f.data, c ≠ '.') →
        includeFile f = multimediaFormats.contains (pyLower f))
      ∧ list_files [(".", ["PNG", "notes.txt"])] = ["./PNG"] := by
  constructor
  · intro f h
    rw [includeFile, lastSeg_of_no_dot f h]
  · decide

/-- Witness for C10 at the dotless name `"PNG"`. -/
theorem C10_dotless_name_filter_witness :
    multimediaFormats.contains (pyLower "PNG") = true
      ∧ includeFile "PNG" = multimediaFormats.contains (pyLower "PNG") :=
  ⟨by decide, C10_dotless_name_filter.1 "PNG" (by decide)⟩

/-- Helper: `dropWhile` passes over a first list all of whose elements
satisfy the predicate. -/
theorem dropWhile_append_of_all (p : Char → Bool) :
    ∀ (l1 l2 : List Char), (∀ c ∈ l1, p c = true) →
      (l1 ++ l2).dropWhile p = l2.dropWhile p := by
  intro l1
  induction l1 with
  | nil => intro l2 _; rfl
  | cons a t ih =>
    intro l2 h
    have hpa : p a = true := h a (List.mem_cons_self a t)
    simp [List.dropWhile_cons, hpa,
      ih l2 (fun c hc => h c (List.mem_cons_of_mem a hc))]

/-- Helper: `takeWhile` stops inside a first list containing a failing
element, so an appended tail is irrelevant. -/
theorem takeWhile_append_of_exists (p : Char → Bool) :
    ∀ (l1 l2 : List Char), (∃ c ∈ l1, p c = false) →
      (l1 ++ l2).takeWhile p = l1.takeWhile p := by
  intro l1
  induction l1 with
  | nil =>
    intro l2 h
    obtain ⟨c, hc, _⟩ := h
    cases hc
  | cons a t ih =>
    intro l2 h
    obtain ⟨c, hc, hcp⟩ := h
    by_cases hpa : p a = true
    · have hct : c ∈ t := by
        rcases List.mem_cons.mp hc with rfl | hct
        · rw [hpa] at hcp; cases hcp
        · exact hct
      simp [List.takeWhile_cons, hpa, ih l2 ⟨c, hct, hcp⟩]
    · have hpa2 : p a = false := Bool.eq_false_iff.mpr hpa
      simp [List.takeWhile_cons, hpa2]

/-- Helper: the model of `os.path.dirname` strips exactly the final
slash-free component: `dirname (dir ++ "/" ++ name) = dir` whenever `dir`
does not end in a slash and `name` is slash-free. -/
theorem dirnameChars_append (d : List Char) (x : Char) (base : List Char)
    (hx : x ≠ '/') (hbase : ∀ c ∈ base, c ≠ '/') :
    dirnameChars ((d ++ [x]) ++ '/' :: base) = d ++ [x] := by
  have hrev : ((d ++ [x]) ++ '/' :: base).reverse
      = base.reverse ++ '/' :: x :: d.reverse := by
    simp
  have hdrop : (base.reverse ++ '/' :: x :: d.reverse).dropWhile
      (fun c => c != '/') = '/' :: x :: d.reverse := by
    rw [dropWhile_append_of_all _ base.reverse _
      (fun c hc => by simpa using hbase c (List.mem_reverse.mp hc))]
    rw [List.dropWhile_cons]
    simp
  have hhead : (('/' :: x :: d.reverse).reverse : List Char)
      = (d ++ [x]) ++ ['/'] := by simp
  have hnotall : ((d ++ [x]) ++ ['/']).all (fun c => c == '/') = false := by
    rw [Bool.eq_false_iff]
    intro hall
    have := List.all_eq_true.mp hall x (by simp)
    exact hx (by simpa using this)
  rw [dirnameChars, hrev, hdrop, hhead, hnotall]
  simp only [Bool.false_eq_true, if_false]
  have hback : (((d ++ [x]) ++ ['/']).reverse : List Char)
      = '/' :: x :: d.reverse := by simp
  rw [hback, List.dropWhile_cons]
  simp only [beq_self_eq_true, if_true]
  rw [List.dropWhile_cons]
  have hxf : (x == '/') = false := by simpa using hx
  simp [hxf]

/-- Helper: every character printed by the decimal digit table is a
digit, hence not a slash. -/
theorem digitChar_ne_slash (n : Nat) : digitChar n ≠ '/' := by
  unfold digitChar
  repeat' split
  all_goals decide

/-- Helper: the fuelled decimal printer emits no slash. -/
theorem natToDecAux_ne_slash : ∀ fuel n, ∀ c ∈ natToDecAux fuel n, c ≠ '/' := by
  intro fuel
  induction fuel with
  | zero => intro n c hc; cases hc
  | succ fuel ih =>
    intro n c hc
    rw [natToDecAux] at hc
    by_cases h : n < 10
    · rw [if_pos h] at hc
      rcases List.mem_singleton.mp hc with rfl
      exact digitChar_ne_slash n
    · rw [if_neg h] at hc
      rcases List.mem_append.mp hc with h1 | h2
      · exact ih (n / 10) c h1
      · rcases List.mem_singleton.mp h2 with rfl
        exact digitChar_ne_slash (n % 10)

/-- Helper: zero-padded decimals contain no slash. -/
theorem padDec_ne_slash (w n : Nat) : ∀ c ∈ padDec w n, c ≠ '/' := by
  intro c hc
  rcases List.mem_append.mp hc with h1 | h2
  · rw [List.eq_of_mem_replicate h1]
    decide
  · exact natToDecAux_ne_slash (n + 1) n c h2

/-- Helper: the derived `YYYYMMDD_HHMMSS` filename contains no slash. -/
theorem fmt_ne_slash (dt : DateTime) :
    ∀ c ∈ (get_filename_from_datetime dt).data, c ≠ '/' := by
  intro c hc
  simp only [get_filename_from_datetime, List.mem_append, List.mem_cons] at hc
  rcases hc with ((hy | hm) | hd) | hu | (hh | hmi) | hs2
  · exact padDec_ne_slash 4 dt.year c hy
  · exact padDec_ne_slash 2 dt.month c hm
  · exact padDec_ne_slash 2 dt.day c hd
  · rw [hu]; decide
  · exact padDec_ne_slash 2 dt.hour c hh
  · exact padDec_ne_slash 2 dt.minute c hmi
  · exact padDec_ne_slash 2 dt.second c hs2

/-- Helper: lowercasing maps no character to a slash except a slash. -/
theorem pyLowerChar_ne_slash (c : Char) (h : c ≠ '/') : pyLowerChar c ≠ '/' := by
  rw [pyLowerChar]
  cases hf : lowerTable.find? (fun p => p.1 == c) with
  | none => exact h
  | some p =>
    exact (by decide : ∀ q ∈ lowerTable, q.2 ≠ '/') p
      (List.mem_of_find?_eq_some hf)

/-- Helper: the last dot-segment of a list is made of its characters. -/
theorem mem_of_mem_lastSegChars (l : List Char) (c : Char)
    (hc : c ∈ lastSegChars l) : c ∈ l := by
  rw [lastSegChars] at hc
  have h1 : c ∈ l.reverse.takeWhile (fun x => x != '.') :=
    List.mem_reverse.mp hc
  exact List.mem_reverse.mp ((List.takeWhile_prefix _).subset h1)

/-- Helper: the last dot-segment of `d ++ "/" ++ base` is that of `base`,
as soon as `base` contains a dot. -/
theorem lastSeg_append (d base : String) (hdot : '.' ∈ base.data) :
    lastSeg (d ++ "/" ++ base) = lastSeg base := by
  have hdata : (d ++ "/" ++ base).data = d.data ++ '/' :: base.data := by
    simp [String.data_append]
  rw [lastSeg, lastSeg, lastSegChars, lastSegChars, hdata]
  have hrev : (d.data ++ '/' :: base.data).reverse
      = base.data.reverse ++ '/' :: d.data.reverse := by simp
  rw [hrev, takeWhile_append_of_exists _ base.data.reverse _
    ⟨'.', List.mem_reverse.mpr hdot, by decide⟩]

/-- Helper: `os.path.dirname (d ++ "/" ++ base) = d` for a nonempty `d`
not ending in a slash and a slash-free `base`. -/
theorem os_dirname_append (d base : String)
    (hd : d.data ≠ []) (hlast : d.data.getLast? ≠ some '/')
    (hbase : ∀ c ∈ base.data, c ≠ '/') :
    os_dirname (d ++ "/" ++ base) = d := by
  rcases List.eq_nil_or_concat' d.data with hnil | ⟨d0, x, hdx⟩
  · exact absurd hnil hd
  · have hx : x ≠ '/' := by
      intro hxe
      refine hlast ?_
      rw [hdx, List.getLast?_concat, hxe]
    have hdata : (d ++ "/" ++ base).data = (d0 ++ [x]) ++ '/' :: base.data := by
      simp [String.data_append, hdx]
    rw [os_dirname, hdata, dirnameChars_append d0 x base.data hx hbase, ← hdx]

/-- C8.  For every timestamp and every record whose `SourceFile` is a
well-formed path `d ++ "/" ++ base` (directory not ending in a slash,
slash-free basename containing an extension dot), the derived target path
keeps the directory unchanged and has filename
`YYYYMMDD_HHMMSS.<lowercased extension of the original>`; concretely, a
JPEG with `EXIF:DateTimeOriginal = "2021:05:11 12:34:56"` gets the target
`20210511_123456.jpg` in its own directory. -/
theorem C8_target_path (d base : String) (dt : DateTime)
    (hd : d.data ≠ []) (hlast : d.data.getLast? ≠ some '/')
    (hbase : ∀ c ∈ base.data, c ≠ '/') (hdot : '.' ∈ base.data) :
    get_new_filename (d ++ "/" ++ base) dt
        = d ++ "/" ++ (get_filename_from_datetime dt ++ "." ++ pyLower (lastSeg base))
      ∧ os_dirname (get_new_filename (d ++ "/" ++ base) dt)
        = os_dirname (d ++ "/" ++ base)
      ∧ get_datetime "2021:05:11 12:34:56" = some ⟨2021, 5, 11, 12, 34, 56⟩
      ∧ get_new_filename "./images/IMG_1234.JPG" ⟨2021, 5, 11, 12, 34, 56⟩
        = "./images/20210511_123456.jpg" := by
  have hname : ∀ c ∈ (get_filename_from_datetime dt ++ "." ++
      pyLower (lastSeg base)).data, c ≠ '/' := by
    intro c hc
    simp only [String.data_append] at hc
    rcases List.mem_append.mp hc with h1 | h2
    · rcases List.mem_append.mp h1 with h3 | h4
      · exact fmt_ne_slash dt c h3
      · rcases List.mem_singleton.mp h4 with rfl
        decide
    · obtain ⟨c0, hc0, rfl⟩ := List.mem_map.mp h2
      exact pyLowerChar_ne_slash c0
        (hbase c0 (mem_of_mem_lastSegChars base.data c0 hc0))
  have h1 : get_new_filename (d ++ "/" ++ base) dt
      = d ++ "/" ++ (get_filename_from_datetime dt ++ "." ++ pyLower (lastSeg base)) := by
    rw [get_new_filename, os_dirname_append d base hd hlast hbase,
      lastSeg_append d base hdot]
    simp [String.append_assoc]
  refine ⟨h1, ?_, by decide, by decide⟩
  rw [h1, os_dirname_append d base hd hlast hbase,
    os_dirname_append d _ hd hlast hname]

/-- Witness for C8 at the claim's concrete scenario. -/
theorem C8_target_path_witness :
    (("./images" : String).data ≠ []
        ∧ ("./images" : String).data.getLast? ≠ some '/'
        ∧ (∀ c ∈ ("IMG_1234.JPG" : String).data, c ≠ '/')
        ∧ '.' ∈ ("IMG_1234.JPG" : String).data)
      ∧ get_new_filename ("./images" ++ "/" ++ "IMG_1234.JPG") ⟨2021, 5, 11, 12, 34, 56⟩
          = "./images" ++ "/" ++ (get_filename_from_datetime ⟨2021, 5, 11, 12, 34, 56⟩
              ++ "." ++ pyLower (lastSeg "IMG_1234.JPG"))
      ∧ get_new_filename "./images/IMG_1234.JPG" ⟨2021, 5, 11, 12, 34, 56⟩
          = "./images/20210511_123456.jpg" :=
  ⟨⟨by decide, by decide, by decide, by decide⟩,
    (C8_target_path "./images" "IMG_1234.JPG" ⟨2021, 5, 11, 12, 34, 56⟩
      (by decide) (by decide) (by decide) (by decide)).1,
    (C8_target_path "./images" "IMG_1234.JPG" ⟨2021, 5, 11, 12, 34, 56⟩
      (by decide) (by decide) (by decide) (by decide)).2.2.2⟩

end Renamer
